import Mathlib

/-!
Verification of the structured-logging core specified for the
apache/logging-log4net tutorial repository.  The repository's own source
(`examples/.../ConsoleApp.cpp`) is caller/tutorial code; the logging engine
itself (LoggerRegistry, Logger, ContextStack, ContextMap, FailureChain) is
external to the provided sources, so those components are modelled from the
specification.  The tutorial's helper methods (`Foo`, `Goo`, `Bar`) are
embedded directly from the source.
-/

namespace Log4

/-- Modelled from the spec: severity levels in ascending order,
Debug < Info < Warn < Error < Fatal (spec section 4.2). -/
inductive Level where
  | debug
  | info
  | warn
  | error
  | fatal
deriving DecidableEq

/-- Numeric severity of a level, used for the ordering Debug < Info < Warn
< Error < Fatal. -/
def Level.sev : Level → Nat
  | .debug => 0
  | .info => 1
  | .warn => 2
  | .error => 3
  | .fatal => 4

/-- First-match lookup in an association list keyed by strings. -/
def lookupStr {α : Type} (k : String) : List (String × α) → Option α
  | [] => none
  | (k', v) :: rest => if k = k' then some v else lookupStr k rest

/-- Split a character list on a separator character; always yields at
least one (possibly empty) group. -/
def splitCharsOn (sep : Char) : List Char → List (List Char)
  | [] => [[]]
  | c :: rest =>
    let r := splitCharsOn sep rest
    if c = sep then [] :: r
    else
      match r with
      | [] => [[c]]
      | g :: gs => (c :: g) :: gs

/-- Join character-list groups with a separator character. -/
def joinChars (sep : Char) : List (List Char) → List Char
  | [] => []
  | [g] => g
  | g :: gs => g ++ sep :: joinChars sep gs

/-- Modelled from the spec: a dotted logger name split on the hierarchy
separator, e.g. "A.B.C" into ["A", "B", "C"] (spec section 4.1). -/
def components (name : String) : List String :=
  (splitCharsOn '.' name.data).map (fun cs => ⟨cs⟩)

/-- Rejoin name components with the hierarchy separator. -/
def joinName (parts : List String) : String :=
  ⟨joinChars '.' (parts.map String.data)⟩

/-- Proper non-empty prefixes of a component list, nearest (longest) first:
for ["A","B","C"] this is [["A","B"], ["A"]]. -/
def properAncestors (parts : List String) : List (List String) :=
  (List.range (parts.length - 1)).reverse.map (fun k => parts.take (k + 1))

/-- Modelled from the spec: the proper ancestors of a dotted name, nearest
first, e.g. "A.B.C" into ["A.B", "A"]; the root is represented implicitly
at the end of every ancestor chain (spec section 4.1). -/
def ancestorNames (name : String) : List String :=
  (properAncestors (components name)).map joinName

/-- Modelled from the spec: the process-wide LoggerRegistry state.  Logger
instances are identified by a numeric id; `loggers` maps each created name
to its unique instance id, `explicitLevels` holds the explicitly configured
level overrides, `rootLevel` is the root/default level, `sinks` the
per-name attached sink ids, `rootSinks` the root logger's sinks, and
`nonAdditive` the names whose ancestor-sink inheritance is disabled
(spec sections 3, 4.1). -/
structure Registry where
  rootLevel : Level
  explicitLevels : List (String × Level)
  loggers : List (String × Nat)
  nextId : Nat
  sinks : List (String × List Nat)
  rootSinks : List Nat
  nonAdditive : List String
deriving DecidableEq

/-- Modelled from the spec: the only registry error, raised for an
empty/malformed logger name (spec section 7). -/
inductive RegError where
  | invalidName
deriving DecidableEq

/-- Explicitly configured level override for a name, if any. -/
def explicitLevel (r : Registry) (name : String) : Option Level :=
  lookupStr name r.explicitLevels

/-- Walk a chain of names looking for the first explicit level; fall back
to the root/default level. -/
def effectiveLevelAux (r : Registry) : List String → Level
  | [] => r.rootLevel
  | n :: rest =>
    match explicitLevel r n with
    | some l => l
    | none => effectiveLevelAux r rest

/-- Modelled from the spec: a Logger's effective level is that of the
nearest name in the chain self, ancestors (nearest first), root that has an
explicitly configured level (spec sections 3, 4.1, glossary). -/
def effectiveLevel (r : Registry) (name : String) : Level :=
  effectiveLevelAux r (name :: ancestorNames name)

/-- Modelled from the spec: `setLevel` records an explicit level override
for `name`; effective levels of descendants are recomputed on demand from
the override table (spec section 4.1). -/
def setLevel (r : Registry) (name : String) (l : Level) : Registry :=
  { r with explicitLevels := (name, l) :: r.explicitLevels }

/-- Modelled from the spec: `getLogger` returns the existing Logger id for
`name` or creates and registers a fresh one; an empty name fails with
`InvalidName` (spec sections 4.1, 7). -/
def getLogger (r : Registry) (name : String) : Except RegError (Registry × Nat) :=
  if name = "" then .error .invalidName
  else
    match lookupStr name r.loggers with
    | some id => .ok (r, id)
    | none =>
      .ok ({ r with loggers := (name, r.nextId) :: r.loggers, nextId := r.nextId + 1 },
           r.nextId)

/-- Modelled from the spec: the level gate, true when `lvl` is at least the
Logger's effective level (spec section 4.2). -/
def isEnabledFor (r : Registry) (name : String) (lvl : Level) : Bool :=
  (effectiveLevel r name).sev ≤ lvl.sev

/-- Sink ids attached directly to a named logger. -/
def sinksOf (r : Registry) (name : String) : List Nat :=
  (lookupStr name r.sinks).getD []

/-- True unless ancestor-sink inheritance has been disabled for `name`. -/
def isAdditive (r : Registry) (name : String) : Bool :=
  decide (name ∉ r.nonAdditive)

/-- Walk a chain of names collecting attached sinks, stopping at the first
logger whose ancestor-sink inheritance is disabled; a walk that reaches the
end of the chain includes the root's sinks. -/
def reachableSinksAux (r : Registry) : List String → List Nat
  | [] => r.rootSinks
  | n :: rest =>
    sinksOf r n ++ (if isAdditive r n then reachableSinksAux r rest else [])

/-- Modelled from the spec: every sink reachable from a logger — its own
sinks plus, unless explicitly disabled, ancestor sinks walked outward to
the root (spec section 4.2). -/
def reachableSinks (r : Registry) (name : String) : List Nat :=
  reachableSinksAux r (name :: ancestorNames name)

/-- Modelled from the spec: the per-execution-context nested diagnostic
context, a LIFO stack of string tags; the most recently pushed tag is at
the head (spec sections 3, 4.3). -/
structure ContextStack where
  tags : List String
deriving DecidableEq

/-- Push a tag onto the calling context's stack. -/
def ContextStack.push (s : ContextStack) (tag : String) : ContextStack :=
  ⟨tag :: s.tags⟩

/-- Pop the most recently pushed tag; on an empty stack this is a no-op
that returns the stack unchanged and no tag (spec section 3). -/
def ContextStack.pop (s : ContextStack) : ContextStack × Option String :=
  match s.tags with
  | [] => (s, none)
  | t :: rest => (⟨rest⟩, some t)

/-- Pop-all: clear the stack immediately. -/
def ContextStack.clear (_ : ContextStack) : ContextStack :=
  ⟨[]⟩

/-- Snapshot of the stack, outermost tag first (spec section 4.3). -/
def ContextStack.peekAll (s : ContextStack) : List String :=
  s.tags.reverse

/-- Modelled from the spec: the per-execution-context mapped diagnostic
context, a mutable string-to-string mapping (spec sections 3, 4.4). -/
structure ContextMap where
  entries : List (String × String)
deriving DecidableEq

/-- Set a key, overwriting any existing binding for it. -/
def ContextMap.set (m : ContextMap) (k v : String) : ContextMap :=
  ⟨(k, v) :: m.entries.filter (fun p => decide (p.1 ≠ k))⟩

/-- Look up a key's current value, if bound. -/
def ContextMap.get (m : ContextMap) (k : String) : Option String :=
  lookupStr k m.entries

/-- Remove a key; a no-op when the key is absent. -/
def ContextMap.remove (m : ContextMap) (k : String) : ContextMap :=
  ⟨m.entries.filter (fun p => decide (p.1 ≠ k))⟩

/-- Snapshot of the map, an independent copy of the current bindings. -/
def ContextMap.snapshot (m : ContextMap) : List (String × String) :=
  m.entries

/-- Modelled from the spec: a failure value model supporting cause chains,
possibly cyclic — failures are identified by numbers; each has a
description, an optional origin location, and an optional cause
(spec sections 3, 4.5). -/
structure FailureGraph where
  descr : Nat → String
  loc : Nat → Option String
  cause : Nat → Option Nat

/-- Modelled from the spec: a captured failure chain — an ordered sequence
of (description, origin-location) elements, outermost failure first, plus a
flag marking a chain truncated by the depth/cycle bound (spec sections 3,
4.5, 7). -/
structure FailureChain where
  elems : List (String × Option String)
  truncated : Bool
deriving DecidableEq

/-- Modelled from the spec: the implementation-defined maximum cause-chain
depth bounding capture and rendering (spec section 4.5). -/
def maxChainDepth : Nat := 16

/-- Fuel-bounded walk of the cause links from a failure; exhausting the
fuel while causes remain marks the chain truncated. -/
def captureAux (g : FailureGraph) : Nat → Nat → FailureChain
  | 0, _ => ⟨[], true⟩
  | fuel + 1, f =>
    let tail : FailureChain :=
      match g.cause f with
      | none => ⟨[], false⟩
      | some c => captureAux g fuel c
    ⟨(g.descr f, g.loc f) :: tail.elems, tail.truncated⟩

/-- Modelled from the spec: `capture` walks the failure's cause links up to
`maxChainDepth` elements, truncating (and marking the chain truncated)
rather than looping on cyclic cause graphs (spec section 4.5). -/
def FailureChain.capture (g : FailureGraph) (f : Nat) : FailureChain :=
  captureAux g maxChainDepth f

/-- One rendered line: the description and, if present, the origin
location. -/
def renderElem : String × Option String → String
  | (d, none) => d
  | (d, some l) => d ++ " at " ++ l

/-- Modelled from the spec: the explicit truncation marker ending the
render of a truncated chain (spec section 4.5). -/
def truncationMarker : String := "... [chain truncated]"

/-- The lines of the rendered chain: one line per element, outermost
failure first (innermost last), followed by the truncation marker when the
chain was truncated. -/
def FailureChain.renderLines (c : FailureChain) : List String :=
  c.elems.map renderElem ++ (if c.truncated then [truncationMarker] else [])

/-- Modelled from the spec: the fixed textual form of a chain — each
element on its own line, innermost last; a truncated chain's render ends
with the truncation marker (spec section 4.5). -/
def FailureChain.render (c : FailureChain) : String :=
  String.intercalate "\n" c.renderLines

/-- Modelled from the spec: the immutable record snapshot produced at the
moment of an enabled logging call (spec section 3). -/
structure LogRecord where
  loggerName : String
  level : Level
  message : String
  timestamp : Nat
  stackSnapshot : List String
  mapSnapshot : List (String × String)
  chain : Option FailureChain
deriving DecidableEq

/-- Behaviour of the external sinks: how each sink id reacts to a record —
success, or a delivery failure with a message.  Sinks are external
collaborators; the core must tolerate any behaviour (spec section 6). -/
def SinkBehavior : Type :=
  Nat → LogRecord → Except String Unit

/-- Deliver a record to each sink in order.  Every sink is invoked
regardless of earlier sinks' failures; failures are collected on a
separate diagnostic channel and never propagated (spec sections 4.2, 7).
Returns the (sink, record) deliveries and the diagnostics. -/
def deliverAll (beh : SinkBehavior) (record : LogRecord) :
    List Nat → List (Nat × LogRecord) × List (Nat × String)
  | [] => ([], [])
  | s :: rest =>
    let tail := deliverAll beh record rest
    match beh s record with
    | .ok _ => ((s, record) :: tail.1, tail.2)
    | .error m => ((s, record) :: tail.1, (s, m) :: tail.2)

/-- Result of an enabled emission: the constructed record, the deliveries
made to sinks, and the sink-failure diagnostics. -/
structure EmitResult where
  record : LogRecord
  deliveries : List (Nat × LogRecord)
  diagnostics : List (Nat × String)
deriving DecidableEq

/-- The immutable record built for an enabled emission: snapshots of the
calling context's stack (outermost tag first) and map, plus the captured
failure chain when a failure value was supplied (spec sections 3, 4.2). -/
def mkRecord (name : String) (lvl : Level) (msg : String) (ts : Nat)
    (st : ContextStack) (mp : ContextMap)
    (fl : Option (FailureGraph × Nat)) : LogRecord :=
  { loggerName := name
    level := lvl
    message := msg
    timestamp := ts
    stackSnapshot := st.peekAll
    mapSnapshot := mp.snapshot
    chain := fl.map (fun p => FailureChain.capture p.1 p.2) }

/-- Modelled from the spec: an emission call.  When the level is below the
logger's effective level nothing happens — no record is constructed and no
sink invoked (`none`).  Otherwise the calling context's stack and map are
snapshotted, an optional failure chain captured, an immutable record built
and delivered synchronously to every reachable sink; sink failures go to
the diagnostics, never to the caller — the function is total and its
result type carries no caller-visible failure (spec sections 4.2, 7). -/
def emit (r : Registry) (name : String) (lvl : Level) (msg : String) (ts : Nat)
    (st : ContextStack) (mp : ContextMap) (fl : Option (FailureGraph × Nat))
    (beh : SinkBehavior) : Option EmitResult :=
  if isEnabledFor r name lvl then
    some { record := mkRecord name lvl msg ts st mp fl
           deliveries := (deliverAll beh (mkRecord name lvl msg ts st mp fl)
             (reachableSinks r name)).1
           diagnostics := (deliverAll beh (mkRecord name lvl msg ts st mp fl)
             (reachableSinks r name)).2 }
  else none

/-- An abstract push or pop operation on a ContextStack. -/
inductive StackOp where
  | push (tag : String)
  | pop
deriving DecidableEq

/-- Apply one operation to a stack (a pop discards the popped tag). -/
def applyOp (s : ContextStack) : StackOp → ContextStack
  | .push t => s.push t
  | .pop => (s.pop).1

/-- Run a sequence of stack operations left to right. -/
def runOps (s : ContextStack) : List StackOp → ContextStack
  | [] => s
  | op :: rest => runOps (applyOp s op) rest

/-- Number of push operations in a sequence. -/
def opPushes : List StackOp → Nat
  | [] => 0
  | .push _ :: rest => opPushes rest + 1
  | .pop :: rest => opPushes rest

/-- Number of pop operations in a sequence. -/
def opPops : List StackOp → Nat
  | [] => 0
  | .push _ :: rest => opPops rest
  | .pop :: rest => opPops rest + 1

/-- Checks that a sequence of operations is properly nested when started
at stack height `h`: no pop ever removes a tag that the sequence itself
did not push (strict LIFO nesting, spec section 3). -/
def nestedFrom : Nat → List StackOp → Bool
  | _, [] => true
  | h, .push _ :: rest => nestedFrom (h + 1) rest
  | h, .pop :: rest =>
    match h with
    | 0 => false
    | h' + 1 => nestedFrom h' rest

/-- The exception model of the tutorial source: a kind, a description and
an optional inner exception (the cause), as thrown by
`LoggingExample::Foo` and `LoggingExample::Goo` in ConsoleApp.cpp. -/
inductive Exn where
  | mk (kind : String) (descr : String) (inner : Option Exn)

/-- The cause chain of an exception, outermost first. -/
def Exn.chain : Exn → List (String × String)
  | .mk k d none => [(k, d)]
  | .mk k d (some e) => (k, d) :: e.chain

/-- Embeds `LoggingExample::Foo` from ConsoleApp.cpp lines 106-109: unconditionally
throws `new Exception(S"This is an Exception")`. -/
def Foo : Except Exn Unit :=
  .error (.mk "System.Exception" "This is an Exception" none)

/-- Embeds `LoggingExample::Goo` from ConsoleApp.cpp lines 111-121: calls `Foo`,
catches the exception and throws an `ArithmeticException` wrapping it as
the inner exception. -/
def Goo : Except Exn Unit :=
  match Foo with
  | .ok u => .ok u
  | .error ex =>
    .error (.mk "System.ArithmeticException"
      "Failed in Goo. Calling Foo. Inner Exception provided" (some ex))

/-- Embeds `LoggingExample::Bar` from ConsoleApp.cpp lines 101-104: calls `Goo`
and lets any exception propagate. -/
def Bar : Except Exn Unit :=
  Goo

/-- The exception value that escapes `Bar`. -/
def barExn : Exn :=
  .mk "System.ArithmeticException"
    "Failed in Goo. Calling Foo. Inner Exception provided"
    (some (.mk "System.Exception" "This is an Exception" none))

/-- The registry invariant: at most one Logger instance id is registered
per distinct name (spec section 3). -/
def RegistryWF (r : Registry) : Prop :=
  (r.loggers.map Prod.fst).Nodup

/-- A fresh registry with default level Debug and one root sink. -/
def reg0 : Registry :=
  { rootLevel := .debug, explicitLevels := [], loggers := [], nextId := 0,
    sinks := [], rootSinks := [0], nonAdditive := [] }

/-- The registry `reg0` after the Logger named "A" has been created. -/
def reg1 : Registry :=
  { rootLevel := .debug, explicitLevels := [], loggers := [("A", 0)], nextId := 1,
    sinks := [], rootSinks := [0], nonAdditive := [] }

/-- The registry `reg0` after `setLevel "A" warn` and creation of the Logger "A.B.C". -/
def reg2 : Registry :=
  { rootLevel := .debug, explicitLevels := [("A", .warn)],
    loggers := [("A.B.C", 0)], nextId := 1,
    sinks := [], rootSinks := [0], nonAdditive := [] }

/-- A fresh registry whose root/default level is Warn. -/
def regW : Registry :=
  { rootLevel := .warn, explicitLevels := [], loggers := [], nextId := 0,
    sinks := [], rootSinks := [0], nonAdditive := [] }

/-- Sinks that always accept delivery. -/
def behOk : SinkBehavior := fun _ _ => .ok ()

/-- A registry with two root sinks, used to observe that a failure of sink
0 does not prevent delivery to sink 1. -/
def regTwoSinks : Registry :=
  { rootLevel := .debug, explicitLevels := [], loggers := [], nextId := 0,
    sinks := [], rootSinks := [0, 1], nonAdditive := [] }

/-- A behaviour where sink 0 fails every delivery and all other sinks
accept. -/
def behFail0 : SinkBehavior := fun s _ => if s = 0 then .error "boom" else .ok ()

/-- The empty context stack. -/
def st0 : ContextStack := ⟨[]⟩

/-- The empty context map. -/
def mp0 : ContextMap := ⟨[]⟩

/-- The tutorial scenario stack after `NDC::Push(S"NDC_Message")`
(ConsoleApp.cpp line 75). -/
def stA : ContextStack := st0.push "NDC_Message"

/-- The tutorial scenario map after `MDC::Set(S"auth", S"auth-none")`
(ConsoleApp.cpp line 79). -/
def mpA : ContextMap := mp0.set "auth" "auth-none"

/-- The tutorial scenario stack after the `NDC::Pop()` in the finally
block (ConsoleApp.cpp line 86). -/
def stB : ContextStack := (stA.pop).1

/-- The tutorial's logger name, from the declaring type of
`LoggingExample` (ConsoleApp.cpp line 39). -/
def exLog : String := "ConsoleApp.LoggingExample"

/-- A two-element failure graph: failure 2 is caused by failure 1, which
has no further cause. -/
def gTwo : FailureGraph :=
  { descr := fun n => if n = 2 then "F2" else "F1",
    loc := fun _ => none,
    cause := fun n => if n = 2 then some 1 else none }

/-- A cyclic failure graph: 1 and 2 cause each other. -/
def gCyc : FailureGraph :=
  { descr := fun _ => "F", loc := fun _ => none,
    cause := fun n => if n = 1 then some 2 else some 1 }

/-- A balanced, properly nested push/pop sequence used as a witness. -/
def opsBal : List StackOp :=
  [.push "a", .push "b", .pop, .pop]

/-- A nonempty stack used as a witness starting state. -/
def stX : ContextStack := ⟨["x"]⟩

/-! ## Helper lemmas -/

/-- Every sink in the list is invoked, in order, whatever the sinks'
behaviour: the delivery list covers exactly the given sinks. -/
theorem deliverAll_fst (beh : SinkBehavior) (record : LogRecord) :
    ∀ l : List Nat, ((deliverAll beh record l).1).map Prod.fst = l := by
  intro l
  induction l with
  | nil => rfl
  | cons s rest ih =>
    cases hb : beh s record with
    | ok u => simp [deliverAll, hb, ih]
    | error m => simp [deliverAll, hb, ih]

/-- The diagnostics collect exactly the failing sinks' errors. -/
theorem deliverAll_snd (beh : SinkBehavior) (record : LogRecord) :
    ∀ l : List Nat, (deliverAll beh record l).2 =
      l.filterMap (fun s =>
        match beh s record with
        | .ok _ => none
        | .error m => some (s, m)) := by
  intro l
  induction l with
  | nil => rfl
  | cons s rest ih =>
    cases hb : beh s record with
    | ok u => simp [deliverAll, hb, ih, List.filterMap_cons]
    | error m => simp [deliverAll, hb, ih, List.filterMap_cons]

/-- When every logger in the chain keeps ancestor-sink inheritance
enabled, the collected sinks are the concatenation of each logger's own
sinks followed by the root's. -/
theorem reachableSinksAux_additive (r : Registry) :
    ∀ l : List String, (∀ m ∈ l, isAdditive r m = true) →
      reachableSinksAux r l =
        l.foldr (fun m acc => sinksOf r m ++ acc) r.rootSinks := by
  intro l
  induction l with
  | nil => intro _; rfl
  | cons n rest ih =>
    intro h
    have hn := h n (List.mem_cons_self n rest)
    have hrest := ih (fun m hm => h m (List.mem_cons_of_mem n hm))
    simp [reachableSinksAux, hn, hrest]

/-- A key that `lookupStr` does not find is not among the keys. -/
theorem lookupStr_none_not_mem {α : Type} (k : String) :
    ∀ l : List (String × α), lookupStr k l = none → k ∉ l.map Prod.fst := by
  intro l
  induction l with
  | nil => intro _; simp
  | cons p rest ih =>
    intro h
    by_cases hk : k = p.1
    · exfalso
      obtain ⟨k', v⟩ := p
      simp only [lookupStr] at h
      rw [if_pos hk] at h
      exact Option.noConfusion h
    · obtain ⟨k', v⟩ := p
      simp only [lookupStr] at h
      rw [if_neg hk] at h
      simp only [List.map_cons, List.mem_cons]
      exact fun hc => hc.elim hk (fun hm => ih h hm)

/-! ## Claim theorems -/

/-- C10: `Bar()` never returns normally — `Foo` unconditionally throws an
Exception with description "This is an Exception", `Goo` catches it and
throws an ArithmeticException with description "Failed in Goo. Calling
Foo. Inner Exception provided" whose cause is that Exception, so the
failure escaping `Bar` has a cause chain of exactly two elements. -/
theorem bar_exception_chain :
    Foo = Except.error (Exn.mk "System.Exception" "This is an Exception" none) ∧
    Goo = Except.error barExn ∧
    Bar = Except.error barExn ∧
    barExn.chain =
      [("System.ArithmeticException",
        "Failed in Goo. Calling Foo. Inner Exception provided"),
       ("System.Exception", "This is an Exception")] ∧
    barExn.chain.length = 2 :=
  ⟨rfl, rfl, rfl, rfl, rfl⟩

/-- C9: `getLogger` fails with `InvalidName` exactly when the supplied
name is empty; every non-empty name succeeds, and `InvalidName` is the
only failure the lookup path can surface. -/
theorem getLogger_invalid_name (r : Registry) (n : String) :
    (getLogger r n = Except.error RegError.invalidName ↔ n = "") ∧
    (∀ e, getLogger r n = Except.error e → e = RegError.invalidName) ∧
    (n ≠ "" → ∃ p, getLogger r n = Except.ok p) := by
  by_cases hn : n = ""
  · subst hn
    refine ⟨⟨fun _ => rfl, fun _ => ?_⟩, fun e _ => ?_, fun h => absurd rfl h⟩
    · simp [getLogger]
    · cases e; rfl
  · have hval : ∃ p, getLogger r n = Except.ok p := by
      rcases hl : lookupStr n r.loggers with _ | i
      · refine ⟨({ r with loggers := (n, r.nextId) :: r.loggers, nextId := r.nextId + 1 }, r.nextId), ?_⟩
        simp only [getLogger, if_neg hn, hl]
      · exact ⟨(r, i), by simp only [getLogger, if_neg hn, hl]⟩
    obtain ⟨p, hp⟩ := hval
    refine ⟨⟨fun h => ?_, fun h => absurd h hn⟩, fun e h => ?_, fun _ => ⟨p, hp⟩⟩
    · exact absurd (hp.symm.trans h) (by simp)
    · exact absurd (hp.symm.trans h) (by simp)

/-- Unfolding `captureAux` one step when the failure has a cause. -/
theorem captureAux_succ_some (g : FailureGraph) (fuel f c : Nat)
    (h : g.cause f = some c) :
    captureAux g (fuel + 1) f =
      ⟨(g.descr f, g.loc f) :: (captureAux g fuel c).elems,
       (captureAux g fuel c).truncated⟩ := by
  simp [captureAux, h]

/-- Unfolding `captureAux` one step when the failure has no cause. -/
theorem captureAux_succ_none (g : FailureGraph) (fuel f : Nat)
    (h : g.cause f = none) :
    captureAux g (fuel + 1) f = ⟨[(g.descr f, g.loc f)], false⟩ := by
  simp [captureAux, h]

/-- The captured chain never exceeds the fuel in length. -/
theorem captureAux_length (g : FailureGraph) :
    ∀ fuel f, (captureAux g fuel f).elems.length ≤ fuel := by
  intro fuel
  induction fuel with
  | zero => intro f; simp [captureAux]
  | succ k ih =>
    intro f
    rcases hc : g.cause f with _ | c
    · rw [captureAux_succ_none g k f hc]
      simp
    · rw [captureAux_succ_some g k f c hc]
      simpa using ih c

/-- On the two-cycle between `f1` and `f2` the walk always exhausts its
fuel and marks the chain truncated. -/
theorem captureAux_cycle_truncated (g : FailureGraph) (f1 f2 : Nat)
    (h1 : g.cause f1 = some f2) (h2 : g.cause f2 = some f1) :
    ∀ fuel x, (x = f1 ∨ x = f2) → (captureAux g fuel x).truncated = true := by
  intro fuel
  induction fuel with
  | zero => intro x _; rfl
  | succ k ih =>
    intro x hx
    rcases hx with rfl | rfl
    · rw [captureAux_succ_some g k x f2 h1]
      exact ih f2 (Or.inr rfl)
    · rw [captureAux_succ_some g k x f1 h2]
      exact ih f1 (Or.inl rfl)

/-- C6: a failure F2 caused by F1 (which has no further cause) captures
and renders as exactly two lines, F2's (outermost) first and F1's second,
with the chain not truncated — so no truncation marker is appended. -/
theorem two_element_chain (g : FailureGraph) (f1 f2 : Nat)
    (h2 : g.cause f2 = some f1) (h1 : g.cause f1 = none) :
    (FailureChain.capture g f2).renderLines =
      [renderElem (g.descr f2, g.loc f2), renderElem (g.descr f1, g.loc f1)] ∧
    (FailureChain.capture g f2).truncated = false := by
  have hcap : FailureChain.capture g f2 =
      ⟨[(g.descr f2, g.loc f2), (g.descr f1, g.loc f1)], false⟩ := by
    show captureAux g maxChainDepth f2 = _
    rw [show maxChainDepth = 15 + 1 from rfl]
    rw [captureAux_succ_some g 15 f2 f1 h2]
    rw [show (15 : Nat) = 14 + 1 from rfl]
    rw [captureAux_succ_none g 14 f1 h1]
  rw [hcap]
  constructor
  · simp [FailureChain.renderLines]
  · rfl

/-- C6 witness: the concrete two-element failure graph renders as its two
descriptions with no truncation. -/
theorem two_element_chain_witness :
    gTwo.cause 2 = some 1 ∧ gTwo.cause 1 = none ∧
    (FailureChain.capture gTwo 2).renderLines =
      [renderElem (gTwo.descr 2, gTwo.loc 2), renderElem (gTwo.descr 1, gTwo.loc 1)] ∧
    (FailureChain.capture gTwo 2).truncated = false :=
  ⟨rfl, rfl, (two_element_chain gTwo 1 2 rfl rfl).1, (two_element_chain gTwo 1 2 rfl rfl).2⟩

/-- C7: on a cause cycle F1 to F2 and back, capture (a total function)
terminates with a chain marked truncated, of at most the configured
maximum depth of elements, and the rendered lines end with the truncation
marker. -/
theorem cycle_truncates (g : FailureGraph) (f1 f2 : Nat)
    (h1 : g.cause f1 = some f2) (h2 : g.cause f2 = some f1) :
    (FailureChain.capture g f1).truncated = true ∧
    (FailureChain.capture g f1).elems.length ≤ maxChainDepth ∧
    truncationMarker ∈ (FailureChain.capture g f1).renderLines := by
  have ht : (FailureChain.capture g f1).truncated = true :=
    captureAux_cycle_truncated g f1 f2 h1 h2 maxChainDepth f1 (Or.inl rfl)
  refine ⟨ht, captureAux_length g maxChainDepth f1, ?_⟩
  simp [FailureChain.renderLines, ht]

/-- C7 witness: the concrete cyclic failure graph truncates at the
configured maximum depth and renders the truncation marker. -/
theorem cycle_truncates_witness :
    gCyc.cause 1 = some 2 ∧ gCyc.cause 2 = some 1 ∧
    (FailureChain.capture gCyc 1).truncated = true ∧
    (FailureChain.capture gCyc 1).elems.length ≤ maxChainDepth ∧
    truncationMarker ∈ (FailureChain.capture gCyc 1).renderLines := by
  exact ⟨rfl, rfl, (cycle_truncates gCyc 1 2 rfl rfl).1,
    (cycle_truncates gCyc 1 2 rfl rfl).2.1,
    (cycle_truncates gCyc 1 2 rfl rfl).2.2⟩

/-- Running a properly nested operation sequence over a stack `t ++ s`
never touches the part `s` below the `t.length` tags the nesting accounts
for, and the resulting upper part's length balances pushes against pops. -/
theorem runOps_nested (ops : List StackOp) :
    ∀ t s : List String, nestedFrom t.length ops = true →
      ∃ t', runOps ⟨t ++ s⟩ ops = ⟨t' ++ s⟩ ∧
        t'.length + opPops ops = t.length + opPushes ops := by
  induction ops with
  | nil =>
    intro t s _
    exact ⟨t, rfl, by simp [opPops, opPushes]⟩
  | cons op rest ih =>
    intro t s hn
    cases op with
    | push tag =>
      obtain ⟨t', h1, h2⟩ := ih (tag :: t) s (by simpa [nestedFrom] using hn)
      refine ⟨t', ?_, ?_⟩
      · show runOps (applyOp ⟨t ++ s⟩ (.push tag)) rest = ⟨t' ++ s⟩
        simpa [applyOp, ContextStack.push] using h1
      · simp only [opPops, opPushes, List.length_cons] at h2 ⊢
        omega
    | pop =>
      cases t with
      | nil => simp [nestedFrom] at hn
      | cons a t2 =>
        obtain ⟨t', h1, h2⟩ := ih t2 s (by simpa [nestedFrom] using hn)
        refine ⟨t', ?_, ?_⟩
        · show runOps (applyOp ⟨(a :: t2) ++ s⟩ .pop) rest = ⟨t' ++ s⟩
          simpa [applyOp, ContextStack.pop] using h1
        · simp only [opPops, opPushes, List.length_cons] at h2 ⊢
          omega

/-- C5: any properly nested sequence with equally many pushes and pops
restores the exact prior stack content, and popping an empty stack is a
no-op that never fails and returns no tag. -/
theorem push_pop_balanced (ops : List StackOp) (c : ContextStack)
    (hbal : opPushes ops = opPops ops) (hnest : nestedFrom 0 ops = true) :
    runOps c ops = c ∧
    ∀ s : ContextStack, s.tags = [] → s.pop = (s, none) := by
  constructor
  · obtain ⟨t', h1, h2⟩ := runOps_nested ops [] c.tags hnest
    have hlen : t'.length = 0 := by
      simp only [List.length_nil, opPushes, opPops] at h2
      omega
    have ht' : t' = [] := List.length_eq_zero.mp hlen
    rw [ht'] at h1
    exact h1
  · intro s hs
    obtain ⟨tags⟩ := s
    simp only at hs
    subst hs
    rfl

/-- C5 witness: a nested balanced sequence on a nonempty stack restores
it. -/
theorem push_pop_balanced_witness :
    opPushes opsBal = opPops opsBal ∧ nestedFrom 0 opsBal = true ∧
    runOps stX opsBal = stX :=
  ⟨by decide, by decide,
   (push_pop_balanced opsBal stX (by decide) (by decide)).1⟩

/-- C1: for any Logger whose effective level is Warn, `isEnabledFor Info`
is false and an Info emission constructs no record and invokes no sink,
while a Warn emission delivers exactly once per reachable sink — the
logger's own sinks plus inherited ancestor and root sinks whenever
ancestor-sink inheritance is not disabled along the chain. -/
theorem warn_level_gate (r : Registry) (n msg : String) (ts : Nat)
    (st : ContextStack) (mp : ContextMap) (beh : SinkBehavior)
    (h : effectiveLevel r n = Level.warn) :
    isEnabledFor r n Level.info = false ∧
    emit r n Level.info msg ts st mp none beh = none ∧
    ∃ res, emit r n Level.warn msg ts st mp none beh = some res ∧
      res.deliveries.map Prod.fst = reachableSinks r n ∧
      ((∀ m ∈ n :: ancestorNames n, isAdditive r m = true) →
        res.deliveries.map Prod.fst =
          sinksOf r n ++
            (ancestorNames n).foldr (fun m acc => sinksOf r m ++ acc) r.rootSinks) := by
  have hinfo : isEnabledFor r n Level.info = false := by
    simp [isEnabledFor, h, Level.sev]
  have hwarn : isEnabledFor r n Level.warn = true := by
    simp [isEnabledFor, h, Level.sev]
  have hemit : emit r n Level.warn msg ts st mp none beh =
      some { record := mkRecord n Level.warn msg ts st mp none
             deliveries := (deliverAll beh (mkRecord n Level.warn msg ts st mp none)
               (reachableSinks r n)).1
             diagnostics := (deliverAll beh (mkRecord n Level.warn msg ts st mp none)
               (reachableSinks r n)).2 } := by
    simp only [emit, hwarn, if_true]
  refine ⟨hinfo, ?_, ?_⟩
  · simp [emit, hinfo]
  · refine ⟨_, hemit, ?_, ?_⟩
    · exact deliverAll_fst beh (mkRecord n Level.warn msg ts st mp none) (reachableSinks r n)
    · intro hadd
      rw [deliverAll_fst beh (mkRecord n Level.warn msg ts st mp none) (reachableSinks r n)]
      rw [reachableSinks, reachableSinksAux_additive r (n :: ancestorNames n) hadd]
      simp

/-- C1 witness: in a registry whose root level is Warn, the logger "A" has
effective level Warn; Info is gated off and Warn delivers to the root
sink. -/
theorem warn_level_gate_witness :
    effectiveLevel regW "A" = Level.warn ∧
    (isEnabledFor regW "A" Level.info = false ∧
     emit regW "A" Level.info "m" 0 st0 mp0 none behOk = none ∧
     ∃ res, emit regW "A" Level.warn "m" 0 st0 mp0 none behOk = some res ∧
       res.deliveries.map Prod.fst = reachableSinks regW "A" ∧
       ((∀ m ∈ "A" :: ancestorNames "A", isAdditive regW m = true) →
         res.deliveries.map Prod.fst =
           sinksOf regW "A" ++
             (ancestorNames "A").foldr
               (fun m acc => sinksOf regW m ++ acc) regW.rootSinks)) :=
  ⟨by decide, warn_level_gate regW "A" "m" 0 st0 mp0 behOk (by decide)⟩

/-- C8: an emission never surfaces a failure to the caller — `emit` is a
total function whose result type carries no error: either the level gate
stops everything, or every reachable sink is invoked exactly once in order
regardless of how sinks fail, with the failures reported only on the
diagnostics channel. -/
theorem sink_failure_isolation (r : Registry) (n msg : String) (lvl : Level)
    (ts : Nat) (st : ContextStack) (mp : ContextMap)
    (fl : Option (FailureGraph × Nat)) (beh : SinkBehavior) :
    (isEnabledFor r n lvl = false ∧ emit r n lvl msg ts st mp fl beh = none) ∨
    (∃ res, emit r n lvl msg ts st mp fl beh = some res ∧
      res.deliveries.map Prod.fst = reachableSinks r n ∧
      res.diagnostics = (reachableSinks r n).filterMap
        (fun s => match beh s res.record with
          | .ok _ => none
          | .error m => some (s, m))) := by
  rcases he : isEnabledFor r n lvl with _ | _
  · left
    exact ⟨rfl, by simp [emit, he]⟩
  · right
    have hemit : emit r n lvl msg ts st mp fl beh =
        some { record := mkRecord n lvl msg ts st mp fl
               deliveries := (deliverAll beh (mkRecord n lvl msg ts st mp fl)
                 (reachableSinks r n)).1
               diagnostics := (deliverAll beh (mkRecord n lvl msg ts st mp fl)
                 (reachableSinks r n)).2 } := by
      simp only [emit, he, if_true]
    refine ⟨_, hemit, ?_, ?_⟩
    · exact deliverAll_fst beh (mkRecord n lvl msg ts st mp fl) (reachableSinks r n)
    · exact deliverAll_snd beh (mkRecord n lvl msg ts st mp fl) (reachableSinks r n)

/-- C4: the tutorial scenario — with "NDC_Message" pushed and the map key
"auth" set to "auth-none", an enabled Warn emission delivers a record
whose snapshots are the stack ["NDC_Message"] and the map with
"auth" bound to "auth-none"; after popping the stack, the next record's
stack snapshot is empty while its map snapshot still carries "auth". -/
theorem ndc_mdc_scenario :
    ((emit reg0 exLog Level.warn "msg" 0 stA mpA none behOk).map
        (fun res => (res.record.stackSnapshot, res.record.mapSnapshot,
          res.deliveries.map Prod.fst))
      = some (["NDC_Message"], [("auth", "auth-none")], [0])) ∧
    ((emit reg0 exLog Level.warn "msg2" 1 stB mpA none behOk).map
        (fun res => (res.record.stackSnapshot, res.record.mapSnapshot,
          res.deliveries.map Prod.fst))
      = some ([], [("auth", "auth-none")], [0])) := by
  decide

/-- C2: after `setLevel "A" warn`, creating the not-yet-existing Logger
"A.B.C" yields a Logger whose effective level is Warn, provided neither
"A.B" nor "A.B.C" carries an explicit override — the new Logger resolves
its level from the nearest configured ancestor. -/
theorem setLevel_inherit (r : Registry)
    (h1 : explicitLevel r "A.B.C" = none) (h2 : explicitLevel r "A.B" = none) :
    ∀ (r' : Registry) (id : Nat),
      getLogger (setLevel r "A" Level.warn) "A.B.C" = Except.ok (r', id) →
      effectiveLevel r' "A.B.C" = Level.warn := by
  intro r' id h
  unfold getLogger at h
  rw [if_neg (by decide : ¬ ("A.B.C" : String) = "")] at h
  have hexp : r'.explicitLevels = ("A", Level.warn) :: r.explicitLevels := by
    rcases hl : lookupStr "A.B.C" (setLevel r "A" Level.warn).loggers with _ | i
    · rw [hl] at h
      simp only [Except.ok.injEq, Prod.mk.injEq] at h
      obtain ⟨hr, _⟩ := h
      rw [← hr]
      rfl
    · rw [hl] at h
      simp only [Except.ok.injEq, Prod.mk.injEq] at h
      obtain ⟨hr, _⟩ := h
      rw [← hr]
      rfl
  have e1 : explicitLevel r' "A.B.C" = none := by
    show lookupStr "A.B.C" r'.explicitLevels = none
    rw [hexp]
    simp only [lookupStr]
    rw [if_neg (by decide : ¬ ("A.B.C" : String) = "A")]
    exact h1
  have e2 : explicitLevel r' "A.B" = none := by
    show lookupStr "A.B" r'.explicitLevels = none
    rw [hexp]
    simp only [lookupStr]
    rw [if_neg (by decide : ¬ ("A.B" : String) = "A")]
    exact h2
  have e3 : explicitLevel r' "A" = some Level.warn := by
    show lookupStr "A" r'.explicitLevels = some Level.warn
    rw [hexp]
    simp [lookupStr]
  have hanc : ancestorNames "A.B.C" = ["A.B", "A"] := by decide
  show effectiveLevelAux r' ("A.B.C" :: ancestorNames "A.B.C") = Level.warn
  rw [hanc]
  simp only [effectiveLevelAux, e1, e2, e3]

/-- C2 witness: in the fresh registry, `setLevel "A" warn` followed by
`getLogger "A.B.C"` produces the concrete registry `reg2` whose Logger
"A.B.C" has effective level Warn. -/
theorem setLevel_inherit_witness :
    explicitLevel reg0 "A.B.C" = none ∧ explicitLevel reg0 "A.B" = none ∧
    getLogger (setLevel reg0 "A" Level.warn) "A.B.C" = Except.ok (reg2, 0) ∧
    effectiveLevel reg2 "A.B.C" = Level.warn :=
  ⟨rfl, rfl, rfl, setLevel_inherit reg0 rfl rfl reg2 0 rfl⟩

/-- C9 witness: the empty name fails with `InvalidName`; the non-empty
name "A" succeeds. -/
theorem getLogger_invalid_name_witness :
    getLogger reg0 "" = Except.error RegError.invalidName ∧
    ("A" : String) ≠ "" ∧ (∃ p, getLogger reg0 "A" = Except.ok p) :=
  ⟨((getLogger_invalid_name reg0 "").1).mpr rfl, by decide,
   (getLogger_invalid_name reg0 "A").2.2 (by decide)⟩

/-- C3: one Logger instance per name — a successful `getLogger` is
idempotent (looking the same name up again returns the very same instance
id and leaves the registry unchanged), and it preserves the invariant that
each name is registered at most once.  The registry is specified as
linearizable, so concurrent calls are modelled by their sequential
linearization. -/
theorem getLogger_unique (r : Registry) (n : String) (r' : Registry) (id : Nat)
    (h : getLogger r n = Except.ok (r', id)) :
    getLogger r' n = Except.ok (r', id) ∧ (RegistryWF r → RegistryWF r') := by
  by_cases hn : n = ""
  · exfalso
    rw [hn] at h
    simp [getLogger] at h
  · unfold getLogger at h
    rw [if_neg hn] at h
    rcases hl : lookupStr n r.loggers with _ | i
    · rw [hl] at h
      simp only [Except.ok.injEq, Prod.mk.injEq] at h
      obtain ⟨hr, hid⟩ := h
      subst hr
      subst hid
      constructor
      · unfold getLogger
        rw [if_neg hn]
        have hfound :
            lookupStr n (({ r with
              loggers := (n, r.nextId) :: r.loggers,
              nextId := r.nextId + 1 } : Registry).loggers) = some r.nextId := by
          simp [lookupStr]
        rw [hfound]
      · intro hwf
        show ((((n, r.nextId) :: r.loggers).map Prod.fst).Nodup)
        rw [List.map_cons, List.nodup_cons]
        exact ⟨lookupStr_none_not_mem n r.loggers hl, hwf⟩
    · rw [hl] at h
      simp only [Except.ok.injEq, Prod.mk.injEq] at h
      obtain ⟨hr, hid⟩ := h
      subst hr
      subst hid
      refine ⟨?_, fun hwf => hwf⟩
      unfold getLogger
      rw [if_neg hn, hl]

/-- C3 witness: creating "A" in the fresh registry and looking it up again
returns the same instance. -/
theorem getLogger_unique_witness :
    getLogger reg1 "A" = Except.ok (reg1, 0) ∧
    (RegistryWF reg0 → RegistryWF reg1) :=
  getLogger_unique reg0 "A" reg1 0 rfl

end Log4
